import Mathlib

/-!
Verification of the MO-CMA-ES generational loop of `shark::detail::MOCMA`
(`src/include/shark/Algorithms/DirectSearch/MOCMA.h`) against its
natural-language specification.

The optimizer state and every operation of `MOCMA.h` are embedded as pure
Lean functions.  Components the optimizer uses but whose sources are not in
the corpus (`CMAIndividual`, `PenalizingEvaluator`, `IndicatorBasedSelection`,
the random source) are either modelled from the specification (marked
`Modelled from the spec:`) or passed as explicit function parameters with the
contracts the specification gives them.  `std::partition` is embedded by the
Hoare-style two-pointer algorithm used by the major C++ standard library
implementations (the C++ standard does not require `std::partition` to be
stable).
-/

namespace SharkMOCMA

/-- One population member of the MO-CMA-ES, mirroring the data carried by
`CMAIndividual`: decision vector, step size, both fitness vectors, the
non-domination rank and selection flag written by selection, the age counter
and the success accumulator `noSuccessfulOffspring`. -/
structure CMAIndividual where
  searchPoint : List ℚ
  stepSize : ℚ
  penalizedFitness : List ℚ
  unpenalizedFitness : List ℚ
  rank : ℕ
  selected : Bool
  age : ℕ
  noSuccessfulOffspring : ℚ
  successThreshold : ℚ
deriving DecidableEq, Repr

instance : Inhabited CMAIndividual :=
  ⟨⟨[], 1, [], [], 0, false, 0, 0, 0⟩⟩

/-- `shark::moo::PenalizingEvaluator`: its state is the penalty factor. -/
structure PenalizingEvaluator where
  m_penaltyFactor : ℚ
deriving DecidableEq, Repr

/-- `IndicatorBasedSelection`: the state the optimizer touches is `m_mu`. -/
structure IndicatorBasedSelection where
  m_mu : ℕ
deriving DecidableEq, Repr

/-- The state of `shark::detail::MOCMA`: population, evaluator, selection
operator, notion-of-success flag, success threshold and initial sigma —
exactly the data members of the C++ class. -/
structure MOCMA where
  m_pop : List CMAIndividual
  m_evaluator : PenalizingEvaluator
  m_selection : IndicatorBasedSelection
  m_useNewUpdate : Bool
  m_individualSuccessThreshold : ℚ
  m_initialSigma : ℚ
deriving DecidableEq, Repr

/-- `MOCMA::mu()`, which returns `m_selection.m_mu`. -/
def MOCMA.mu (s : MOCMA) : ℕ :=
  s.m_selection.m_mu

/-- `MOCMA::init(mu, penaltyFactor, successThreshold, notionOfSuccess,
initialSigma)`: assigns `m_selection.m_mu`, `m_initialSigma`,
`m_evaluator.m_penaltyFactor` and `m_individualSuccessThreshold`, then sets
`m_useNewUpdate` to `false` on `"IndividualBased"`, to `true` on
`"PopulationBased"`, and otherwise leaves it untouched (the source has no
else-branch and no error path: the function is `void`, throws nothing and
asserts nothing, so the embedding is a total function). -/
def MOCMA.initConfig (s : MOCMA) (mu : ℕ) (penaltyFactor : ℚ)
    (successThreshold : ℚ) (notionOfSuccess : String) (initialSigma : ℚ) :
    MOCMA :=
  let s :=
    { s with
      m_selection := { s.m_selection with m_mu := mu }
      m_initialSigma := initialSigma
      m_evaluator := { s.m_evaluator with m_penaltyFactor := penaltyFactor }
      m_individualSuccessThreshold := successThreshold }
  if notionOfSuccess = "IndividualBased" then
    { s with m_useNewUpdate := false }
  else if notionOfSuccess = "PopulationBased" then
    { s with m_useNewUpdate := true }
  else
    s

/-- The data written by `MOCMA::serialize`: the archive receives exactly
`m_pop`, `m_evaluator`, `m_selection` and `m_useNewUpdate` — it does not
receive `m_individualSuccessThreshold` or `m_initialSigma`. -/
structure MOCMAArchive where
  m_pop : List CMAIndividual
  m_evaluator : PenalizingEvaluator
  m_selection : IndicatorBasedSelection
  m_useNewUpdate : Bool
deriving DecidableEq, Repr

/-- `MOCMA::serialize` in storing direction: writes the four archived
members. -/
def MOCMA.store (s : MOCMA) : MOCMAArchive :=
  ⟨s.m_pop, s.m_evaluator, s.m_selection, s.m_useNewUpdate⟩

/-- `MOCMA::serialize` in loading direction: reads back exactly the four
archived members, leaving every other member of the destination object as it
was. -/
def MOCMA.load (s : MOCMA) (a : MOCMAArchive) : MOCMA :=
  { s with
    m_pop := a.m_pop
    m_evaluator := a.m_evaluator
    m_selection := a.m_selection
    m_useNewUpdate := a.m_useNewUpdate }

/-- The objective-function interface the optimizer consumes
(`numberOfVariables`, `numberOfObjectives`, `proposeStartingPoint`,
evaluation, and the feasibility interface the penalizing evaluator uses).
`proposeStartingPoint i` is the point produced by the i-th call — the C++
method draws from the random source, so successive calls may differ; the
stream of proposals is modelled as a function of the call index. -/
structure ObjectiveFunction where
  numberOfVariables : ℕ
  numberOfObjectives : ℕ
  proposeStartingPoint : ℕ → List ℚ
  eval : List ℚ → List ℚ
  isFeasible : List ℚ → Bool
  closestFeasible : List ℚ → List ℚ

/-- Squared distance between two points, used by the penalty term. -/
def sqDist (a b : List ℚ) : ℚ :=
  ((a.zip b).map fun q => (q.1 - q.2) ^ 2).sum

/-- Modelled from the spec: `shark::moo::PenalizingEvaluator::operator()`
(its source file is not in the corpus).  Feasible points get identical
penalized and unpenalized fitness; infeasible points are evaluated at the
closest feasible point, and the penalized fitness adds the squared distance
to feasibility scaled by the penalty factor. -/
def PenalizingEvaluator.evalPoint (e : PenalizingEvaluator)
    (f : ObjectiveFunction) (x : List ℚ) : List ℚ × List ℚ :=
  if f.isFeasible x then
    let v := f.eval x
    (v, v)
  else
    let y := f.closestFeasible x
    let v := f.eval y
    (v.map fun c => c + e.m_penaltyFactor * sqDist x y, v)

/-- Modelled from the spec: the constructor
`CMAIndividual(noVariables, noObjectives, successThreshold, initialSigma)`
(its source file is not in the corpus): a fresh individual with a
`noVariables`-dimensional search point, step size set to `initialSigma`,
age and success counter zero, and not-yet-meaningful fitness vectors. -/
def CMAIndividual.create (noVariables noObjectives : ℕ)
    (successThreshold initialSigma : ℚ) : CMAIndividual :=
  { searchPoint := List.replicate noVariables 0
    stepSize := initialSigma
    penalizedFitness := List.replicate noObjectives 0
    unpenalizedFitness := List.replicate noObjectives 0
    rank := 0
    selected := false
    age := 0
    noSuccessfulOffspring := 0
    successThreshold := successThreshold }

/-- The three collaborators `MOCMA::step` calls whose sources are not in the
corpus, passed as explicit functions: `mutate` models
`CMAIndividual::mutate` with the random source threaded as an explicit
state (spec: reproducible given a seeded random source); `update` models
`CMAIndividual::update` (step-size adaptation; it does not touch the
selection flag); `select` models `IndicatorBasedSelection::operator()`,
which receives `m_mu` and writes the `selected` flags and `rank`s of the
population in place. -/
structure StepExternals where
  mutate : ℕ → CMAIndividual → CMAIndividual × ℕ
  update : CMAIndividual → CMAIndividual
  select : ℕ → List CMAIndividual → List CMAIndividual

/-- The body of the offspring loop of `MOCMA::step`: the offspring starts as
a copy of the parent, is mutated, gets `age = 0`, and is evaluated through
the penalizing evaluator with both fitness vectors stored. -/
def makeOffspring (ext : StepExternals) (f : ObjectiveFunction)
    (ev : PenalizingEvaluator) (parent : CMAIndividual) (rng : ℕ) :
    CMAIndividual × ℕ :=
  let m := ext.mutate rng parent
  let child := { m.1 with age := 0 }
  let r := ev.evalPoint f child.searchPoint
  ({ child with penalizedFitness := r.1, unpenalizedFitness := r.2 }, m.2)

/-- The first `k` iterations of the offspring-generation loop of
`MOCMA::step`. -/
def generateOffspringAux (ext : StepExternals) (f : ObjectiveFunction)
    (ev : PenalizingEvaluator) (mu : ℕ) (pop : List CMAIndividual)
    (rng : ℕ) (k : ℕ) : List CMAIndividual × ℕ :=
  (List.range k).foldl
    (fun acc i =>
      let c := makeOffspring ext f ev (acc.1.getD i default) acc.2
      (acc.1.set (mu + i) c.1, c.2))
    (pop, rng)

/-- The offspring-generation loop of `MOCMA::step`: for `i` in `[0, mu)`,
`m_pop[mu+i] = m_pop[i]`, then mutate, reset age, evaluate. -/
def generateOffspring (ext : StepExternals) (f : ObjectiveFunction)
    (ev : PenalizingEvaluator) (mu : ℕ) (pop : List CMAIndividual)
    (rng : ℕ) : List CMAIndividual × ℕ :=
  generateOffspringAux ext f ev mu pop rng mu

/-- The random-source state at the start of iteration `i` of the offspring
loop (iterations `0, …, i-1` each consumed one `mutate` draw). -/
def rngBefore (ext : StepExternals) (f : ObjectiveFunction)
    (ev : PenalizingEvaluator) (pop : List CMAIndividual) (rng0 : ℕ) :
    ℕ → ℕ
  | 0 => rng0
  | i + 1 =>
    (makeOffspring ext f ev (pop.getD i default)
      (rngBefore ext f ev pop rng0 i)).2

/-- `ind.noSuccessfulOffspring() += 1.0` at population index `j`. -/
def creditSuccess (pop : List CMAIndividual) (j : ℕ) : List CMAIndividual :=
  pop.set j
    { pop.getD j default with
      noSuccessfulOffspring := (pop.getD j default).noSuccessfulOffspring + 1 }

/-- The first `k` iterations of a success loop of `MOCMA::step`. -/
def successLoopAux (cond : List CMAIndividual → ℕ → Bool) (mu : ℕ)
    (pop : List CMAIndividual) (k : ℕ) : List CMAIndividual :=
  (List.range k).foldl
    (fun pop i =>
      if cond pop i then creditSuccess (creditSuccess pop (mu + i)) i
      else pop)
    pop

/-- The common shape of the two success loops of `MOCMA::step`: for `i` in
`[0, mu)`, when the condition holds, increment the success counter of the
offspring `mu+i` and then of the parent `i`. -/
def successLoop (cond : List CMAIndividual → ℕ → Bool) (mu : ℕ)
    (pop : List CMAIndividual) : List CMAIndividual :=
  successLoopAux cond mu pop mu

/-- The success-determination phase of `MOCMA::step`: with the new
(population-based) update an offspring is successful iff it is selected;
with the old (individual-based) update it is successful iff it is selected
and its rank is no worse than its parent's. -/
def successUpdate (useNewUpdate : Bool) (mu : ℕ)
    (pop : List CMAIndividual) : List CMAIndividual :=
  if useNewUpdate then
    successLoop (fun pop i => (pop.getD (mu + i) default).selected) mu pop
  else
    successLoop
      (fun pop i =>
        (pop.getD (mu + i) default).selected &&
          decide ((pop.getD (mu + i) default).rank ≤ (pop.getD i default).rank))
      mu pop

/-- The success condition tested by `MOCMA::step` for parent `i` and
offspring `mu+i`, read off the population after selection: with the new
(population-based) update, `m_pop[mu+i].selected()`; with the old
(individual-based) update,
`m_pop[mu+i].selected() && m_pop[mu+i].rank() <= m_pop[i].rank()`. -/
def offspringSuccessful (useNewUpdate : Bool) (mu : ℕ)
    (pop : List CMAIndividual) (i : ℕ) : Bool :=
  if useNewUpdate then (pop.getD (mu + i) default).selected
  else
    (pop.getD (mu + i) default).selected &&
      decide ((pop.getD (mu + i) default).rank ≤ (pop.getD i default).rank)

/-- Downward scan of the two-pointer partition: starting at index `j` and
moving down, the first index whose element satisfies `p`; stops at `first`
if none is found above it. -/
def scanDown {α : Type} [Inhabited α] (p : α → Bool) (l : List α)
    (first : ℕ) : ℕ → ℕ
  | 0 => first
  | j + 1 =>
    if first < j + 1 then
      if p (l.getD (j + 1) default) then j + 1
      else scanDown p l first j
    else first

/-- `std::iter_swap` on list indices `i` and `j`. -/
def listSwap {α : Type} [Inhabited α] (l : List α) (i j : ℕ) : List α :=
  (l.set i (l.getD j default)).set j (l.getD i default)

/-- The Hoare-style two-pointer loop implementing `std::partition` for
random-access iterators (as in the major C++ standard library
implementations): advance `first` over elements satisfying `p`, retreat
`last` over elements failing `p`, swap, repeat.  The fuel argument bounds
the recursion; `last - first` shrinks at every recursive call, so fuel
`l.length` always suffices for the initial call. -/
def partAux {α : Type} [Inhabited α] (p : α → Bool) :
    ℕ → List α → ℕ → ℕ → List α
  | 0, l, _, _ => l
  | fuel + 1, l, first, last =>
    if first < last then
      if p (l.getD first default) then partAux p fuel l (first + 1) last
      else
        let l' := scanDown p l first (last - 1)
        if first = l' then l
        else partAux p fuel (listSwap l first l') (first + 1) l'
    else l

/-- `std::partition(begin, end, p)` over a whole list. -/
def stdPartition {α : Type} [Inhabited α] (p : α → Bool) (l : List α) :
    List α :=
  partAux p l.length l 0 l.length

/-- The first `k` iterations of the final loop of `MOCMA::step`. -/
def finalizeLoopAux (update : CMAIndividual → CMAIndividual) (mu : ℕ)
    (pop : List CMAIndividual) (k : ℕ) :
    List CMAIndividual × List (List ℚ × List ℚ) :=
  (List.range k).foldl
    (fun acc i =>
      let prev := acc.1.getD i default
      let ind := update { prev with age := prev.age + 1 }
      (acc.1.set i ind, acc.2 ++ [(ind.searchPoint, ind.unpenalizedFitness)]))
    (pop, [])

/-- The final loop of `MOCMA::step`: for `i` in `[0, mu)`, increment
`m_pop[i]`'s age, run its `update()`, and append
`(searchPoint, unpenalizedFitness)` of the updated individual to the
solution set. -/
def finalizeLoop (update : CMAIndividual → CMAIndividual) (mu : ℕ)
    (pop : List CMAIndividual) :
    List CMAIndividual × List (List ℚ × List ℚ) :=
  finalizeLoopAux update mu pop mu

/-- `MOCMA::step`: generate and evaluate the offspring, run selection over
the full `2*mu` population, determine successes, partition the selected
individuals to the front with `std::partition`, then age/update the first
`mu` individuals, collecting the returned solution set. -/
def MOCMA.step (ext : StepExternals) (f : ObjectiveFunction) (s : MOCMA)
    (rng : ℕ) : List (List ℚ × List ℚ) × MOCMA × ℕ :=
  let g := generateOffspring ext f s.m_evaluator s.mu s.m_pop rng
  let pop2 := ext.select s.mu g.1
  let pop3 := successUpdate s.m_useNewUpdate s.mu pop2
  let pop4 := stdPartition (fun ind => ind.selected) pop3
  let fin := finalizeLoop ext.update s.mu pop4
  (fin.2, { s with m_pop := fin.1 }, g.2)

/-- Iterated `step`: a whole optimization run of `n` generations, returning
the per-generation solution sets and the final optimizer and random-source
states. -/
def MOCMA.run (ext : StepExternals) (f : ObjectiveFunction) :
    ℕ → MOCMA → ℕ → List (List (List ℚ × List ℚ)) × MOCMA × ℕ
  | 0, s, rng => ([], s, rng)
  | n + 1, s, rng =>
    let r := MOCMA.step ext f s rng
    let rest := MOCMA.run ext f n r.2.1 r.2.2
    (r.1 :: rest.1, rest.2.1, rest.2.2)

/-- The loop body of `MOCMA::init(f, sp)`: construct a `CMAIndividual` from
the problem dimensions, the success threshold and the initial sigma, let the
objective propose its starting point (the i-th call of the proposal stream),
and evaluate it through the penalizing evaluator, storing both fitness
vectors. -/
def initIndividual (s : MOCMA) (f : ObjectiveFunction) (i : ℕ) :
    CMAIndividual :=
  let ind := CMAIndividual.create f.numberOfVariables
    f.numberOfObjectives s.m_individualSuccessThreshold s.m_initialSigma
  let ind := { ind with searchPoint := f.proposeStartingPoint i }
  let r := s.m_evaluator.evalPoint f ind.searchPoint
  { ind with penalizedFitness := r.1, unpenalizedFitness := r.2 }

/-- `MOCMA::init(f, sp)`: reserves space and then pushes `2*mu` freshly
constructed individuals, each given a starting point proposed by the
objective, evaluated through the penalizing evaluator with both fitness
vectors stored.  The supplied starting point `sp` is never read by the
source — the parameter exists but has no use in the function body. -/
def MOCMA.initF (s : MOCMA) (f : ObjectiveFunction) (sp : List ℚ) : MOCMA :=
  { s with
    m_pop := s.m_pop ++ (List.range (2 * s.mu)).map (initIndividual s f) }

/-- Modelled from the spec: `CMAIndividual::update()` (its source file is
not in the corpus).  Per §4.1, the step size undergoes a multiplicative
update with a fixed learning-rate exponent driven by the observed success
rate against the target success probability:
`σ' = σ · exp((p − p_target) / (d · (1 − p_target)))`. -/
noncomputable def updatedStepSize (sigma successRate targetRate d : ℝ) : ℝ :=
  sigma * Real.exp ((successRate - targetRate) / (d * (1 - targetRate)))

/-- The step size after a finite sequence of `update()` calls, each with its
observed success rate, target rate and damping parameter. -/
noncomputable def stepSizeAfterUpdates (sigma : ℝ)
    (updates : List (ℝ × ℝ × ℝ)) : ℝ :=
  updates.foldl (fun s u => updatedStepSize s u.1 u.2.1 u.2.2) sigma

/-- Concrete externals for witnesses and counterexamples: mutation appends
the coordinate 9 to the search point (arithmetic-free so that kernel
evaluation stays cheap) and advances the random state, `update` is the
identity, selection marks the middle two of a four-element population as
selected — a flag pattern reachable by indicator-based selection when the
first parent is dominated by its offspring and the second offspring is
dominated by its parent. -/
def cexExternals : StepExternals where
  mutate := fun r ind =>
    ({ ind with searchPoint := ind.searchPoint ++ [9] }, r + 1)
  update := id
  select := fun _ pop =>
    match pop with
    | [a, b, c, d] =>
      [{ a with selected := false, rank := 0 },
       { b with selected := true, rank := 0 },
       { c with selected := true, rank := 0 },
       { d with selected := false, rank := 1 }]
    | l => l

/-- A concrete unconstrained objective for witnesses and counterexamples. -/
def cexF : ObjectiveFunction where
  numberOfVariables := 1
  numberOfObjectives := 2
  proposeStartingPoint := fun i => [(i : ℚ)]
  eval := fun x => x ++ x
  isFeasible := fun _ => true
  closestFeasible := fun x => x

/-- A concrete parent individual with a given search point tag. -/
def mkParent (x : ℚ) : CMAIndividual :=
  { searchPoint := [x]
    stepSize := 1
    penalizedFitness := [x, x]
    unpenalizedFitness := [x, x]
    rank := 0
    selected := false
    age := 1
    noSuccessfulOffspring := 0
    successThreshold := 44/100 }

/-- A concrete optimizer state with `mu = 2` and a four-slot population. -/
def cexState : MOCMA where
  m_pop := [mkParent 0, mkParent 1, mkParent 2, mkParent 3]
  m_evaluator := ⟨1/1000000⟩
  m_selection := ⟨2⟩
  m_useNewUpdate := false
  m_individualSuccessThreshold := 44/100
  m_initialSigma := 1

end SharkMOCMA

namespace SharkMOCMA

/-- C9: `MOCMA::init` with a notion-of-success string that is neither
`"IndividualBased"` nor `"PopulationBased"` still assigns `mu`, the penalty
factor, the success threshold and the initial sigma, and leaves
`m_useNewUpdate` (and the population) unchanged from the previous state. -/
theorem initConfig_unknown_notion_frame (s : MOCMA) (mu : ℕ)
    (penaltyFactor successThreshold initialSigma : ℚ) (notion : String)
    (h1 : notion ≠ "IndividualBased") (h2 : notion ≠ "PopulationBased") :
    s.initConfig mu penaltyFactor successThreshold notion initialSigma =
      { s with
        m_selection := { s.m_selection with m_mu := mu }
        m_initialSigma := initialSigma
        m_evaluator := { s.m_evaluator with m_penaltyFactor := penaltyFactor }
        m_individualSuccessThreshold := successThreshold } := by
  simp [MOCMA.initConfig, h1, h2]

/-- Witness for `initConfig_unknown_notion_frame` at a concrete state and the
unrecognized string `"Invalid"`. -/
theorem initConfig_unknown_notion_frame_witness :
    ("Invalid" ≠ "IndividualBased" ∧ "Invalid" ≠ "PopulationBased") ∧
      (MOCMA.mk [] ⟨0⟩ ⟨0⟩ true 0 0).initConfig 3 1 2 "Invalid" 4 =
        { MOCMA.mk [] ⟨0⟩ ⟨0⟩ true 0 0 with
          m_selection := ⟨3⟩
          m_initialSigma := 4
          m_evaluator := ⟨1⟩
          m_individualSuccessThreshold := 2 } :=
  ⟨⟨by decide, by decide⟩,
    initConfig_unknown_notion_frame (MOCMA.mk [] ⟨0⟩ ⟨0⟩ true 0 0) 3 1 2 4
      "Invalid" (by decide) (by decide)⟩

/-- C7 counterexample: the invalid configuration `mu = 0` together with the
unrecognized notion string `"Invalid"` is accepted silently — `init` returns
a normally assigned state (there is no error path in the source: the function
is `void` with no throw and no assertion), stores `mu = 0`, and leaves
`m_useNewUpdate` at its previous value.  This refutes the claim that invalid
configurations do not succeed silently. -/
theorem initConfig_invalid_accepted_cex :
    (MOCMA.mk [] ⟨7⟩ ⟨5⟩ true 9 2).initConfig 0 1 2 "Invalid" 3 =
      MOCMA.mk [] ⟨1⟩ ⟨0⟩ true 2 3 ∧
    ((MOCMA.mk [] ⟨7⟩ ⟨5⟩ true 9 2).initConfig 0 1 2 "Invalid" 3).mu = 0 := by
  constructor <;> decide

/-- C7 amended: configuration errors are not reported.  `init` always
completes: `mu = 0` is stored as given, and the penalty factor, success
threshold and initial sigma are assigned from the arguments regardless of the
notion-of-success string. -/
theorem initConfig_silently_accepts_mu_zero (s : MOCMA)
    (pf st sig : ℚ) (notion : String) :
    (s.initConfig 0 pf st notion sig).mu = 0 ∧
    (s.initConfig 0 pf st notion sig).m_evaluator.m_penaltyFactor = pf ∧
    (s.initConfig 0 pf st notion sig).m_individualSuccessThreshold = st ∧
    (s.initConfig 0 pf st notion sig).m_initialSigma = sig := by
  unfold MOCMA.initConfig MOCMA.mu
  split_ifs <;> simp

/-- C10: `serialize` archives only `m_pop`, `m_evaluator`, `m_selection` and
`m_useNewUpdate`; loading a stored optimizer into another copies those four
members and leaves the destination's `m_individualSuccessThreshold` and
`m_initialSigma` at their prior values — serialization is not a full
round-trip of the configuration. -/
theorem serialize_partial_roundtrip (s t : MOCMA) :
    (t.load s.store).m_pop = s.m_pop ∧
    (t.load s.store).m_evaluator = s.m_evaluator ∧
    (t.load s.store).m_selection = s.m_selection ∧
    (t.load s.store).m_useNewUpdate = s.m_useNewUpdate ∧
    (t.load s.store).m_individualSuccessThreshold =
      t.m_individualSuccessThreshold ∧
    (t.load s.store).m_initialSigma = t.m_initialSigma := by
  simp [MOCMA.load, MOCMA.store]

/-- C8: the step size stays strictly positive after any finite sequence of
`update()` calls, for arbitrary success-rate / target / damping sequences —
each update multiplies the current step size by an exponential, which is
strictly positive. -/
theorem stepSize_pos_after_updates (sigma : ℝ) (updates : List (ℝ × ℝ × ℝ))
    (h : 0 < sigma) : 0 < stepSizeAfterUpdates sigma updates := by
  induction updates generalizing sigma with
  | nil => simpa [stepSizeAfterUpdates] using h
  | cons u us ih =>
    have hstep : stepSizeAfterUpdates sigma (u :: us) =
        stepSizeAfterUpdates (updatedStepSize sigma u.1 u.2.1 u.2.2) us := rfl
    rw [hstep]
    exact ih _ (mul_pos h (Real.exp_pos _))

/-- Witness for `stepSize_pos_after_updates` at `σ = 1` and two concrete
updates. -/
theorem stepSize_pos_after_updates_witness :
    0 < (1 : ℝ) ∧
      0 < stepSizeAfterUpdates 1 [(1, 0, 1), (0, 44/100, 2)] :=
  ⟨by norm_num,
    stepSize_pos_after_updates 1 [(1, 0, 1), (0, 44/100, 2)] (by norm_num)⟩

/-- C5: the run is a deterministic function of the optimizer state, the
random-source state, the objective function and the external operators —
two runs from identical states with identical random seeds produce identical
results, in particular identical survivor populations and identical
step-size trajectories. -/
theorem run_deterministic (ext : StepExternals) (f : ObjectiveFunction)
    (n : ℕ) (s₁ s₂ : MOCMA) (r₁ r₂ : ℕ) (hs : s₁ = s₂) (hr : r₁ = r₂) :
    MOCMA.run ext f n s₁ r₁ = MOCMA.run ext f n s₂ r₂ ∧
      ((MOCMA.run ext f n s₁ r₁).2.1.m_pop.map fun ind => ind.stepSize) =
        ((MOCMA.run ext f n s₂ r₂).2.1.m_pop.map fun ind => ind.stepSize) := by
  subst hs
  subst hr
  exact ⟨rfl, rfl⟩

/-- Witness for `run_deterministic`: two three-generation runs from the same
concrete state and seed coincide. -/
theorem run_deterministic_witness :
    MOCMA.run cexExternals cexF 3 cexState 0 =
        MOCMA.run cexExternals cexF 3 cexState 0 ∧
      ((MOCMA.run cexExternals cexF 3 cexState 0).2.1.m_pop.map
          fun ind => ind.stepSize) =
        ((MOCMA.run cexExternals cexF 3 cexState 0).2.1.m_pop.map
          fun ind => ind.stepSize) :=
  run_deterministic cexExternals cexF 3 cexState cexState 0 0 rfl rfl

/-- Indexing helper: `getD` agrees with `getElem` inside the bounds. -/
lemma getD_eq_getElem' {α : Type} [Inhabited α] (l : List α) (i : ℕ)
    (h : i < l.length) : l.getD i default = l[i] := by
  simp [List.getD_eq_getElem?_getD, List.getElem?_eq_getElem h]

/-- Reading back a just-written list cell. -/
lemma getD_set_self' {α : Type} [Inhabited α] (l : List α) (i : ℕ) (v : α)
    (h : i < l.length) : (l.set i v).getD i default = v := by
  simp [List.getD_eq_getElem?_getD, List.getElem?_set_self h]

/-- Writing one list cell leaves every other cell unchanged. -/
lemma getD_set_ne' {α : Type} [Inhabited α] (l : List α) {i j : ℕ} (v : α)
    (h : i ≠ j) : (l.set i v).getD j default = l.getD j default := by
  simp [List.getD_eq_getElem?_getD, List.getElem?_set_ne h]

/-- Indexing a map over `List.range`. -/
lemma getD_map_range {β : Type} [Inhabited β] (n i : ℕ) (g : ℕ → β)
    (h : i < n) : ((List.range n).map g).getD i default = g i := by
  simp [List.getD_eq_getElem?_getD, List.getElem?_map, List.getElem?_range h]

/-- C6 counterexample: `init(f, sp)` never reads the supplied starting
point.  On a fresh optimizer with `mu = 2`, initializing with the starting
point `[99]` produces individuals whose search points are the objective's
per-call proposals `[0], [1], [2], [3]` — not `[99]` — and the result is
literally identical to initializing with no starting point at all. -/
theorem initF_ignores_starting_point_cex :
    (({ cexState with m_pop := [] } : MOCMA).initF cexF [99]).m_pop.map
        (fun ind => ind.searchPoint) = [[0], [1], [2], [3]] ∧
      (({ cexState with m_pop := [] } : MOCMA).initF cexF [99]).m_pop.getD 0
          default ≠ mkParent 99 ∧
      ((({ cexState with m_pop := [] } : MOCMA).initF cexF
            [99]).m_pop.getD 0 default).searchPoint ≠ [99] ∧
      ({ cexState with m_pop := [] } : MOCMA).initF cexF [99] =
        ({ cexState with m_pop := [] } : MOCMA).initF cexF [] := by
  refine ⟨?_, ?_, ?_, rfl⟩ <;> decide

/-- C6 amended: on a fresh optimizer, `init(f, sp)` allocates exactly `2*mu`
individuals and evaluates them all through the penalizing evaluator, with
each individual's search point taken from the objective's per-call proposed
starting point — the supplied starting point is ignored, whether or not one
was given — and each step size set to the configured initial sigma. -/
theorem initF_allocates_and_evaluates (s : MOCMA) (f : ObjectiveFunction)
    (sp : List ℚ) (hfresh : s.m_pop = []) :
    (s.initF f sp).m_pop.length = 2 * s.mu ∧
      (∀ sp', s.initF f sp = s.initF f sp') ∧
      ∀ i, i < 2 * s.mu →
        ((s.initF f sp).m_pop.getD i default).searchPoint =
            f.proposeStartingPoint i ∧
          ((s.initF f sp).m_pop.getD i default).stepSize = s.m_initialSigma ∧
          ((s.initF f sp).m_pop.getD i default).penalizedFitness =
            (s.m_evaluator.evalPoint f (f.proposeStartingPoint i)).1 ∧
          ((s.initF f sp).m_pop.getD i default).unpenalizedFitness =
            (s.m_evaluator.evalPoint f (f.proposeStartingPoint i)).2 := by
  refine ⟨?_, fun sp' => rfl, fun i hi => ?_⟩
  · simp [MOCMA.initF, hfresh]
  · have h := getD_map_range (2 * s.mu) i (initIndividual s f) hi
    refine ⟨?_, ?_, ?_, ?_⟩ <;>
      · simp only [MOCMA.initF, hfresh, List.nil_append]
        rw [h]
        simp [initIndividual, CMAIndividual.create]

/-- Witness for `initF_allocates_and_evaluates` on a fresh concrete state. -/
theorem initF_allocates_and_evaluates_witness :
    ({ cexState with m_pop := [] } : MOCMA).m_pop = [] ∧
      ((({ cexState with m_pop := [] } : MOCMA).initF cexF [99]).m_pop.length =
          2 * ({ cexState with m_pop := [] } : MOCMA).mu ∧
        (∀ sp', ({ cexState with m_pop := [] } : MOCMA).initF cexF [99] =
            ({ cexState with m_pop := [] } : MOCMA).initF cexF sp') ∧
        ∀ i, i < 2 * ({ cexState with m_pop := [] } : MOCMA).mu →
          ((({ cexState with m_pop := [] } : MOCMA).initF cexF
                [99]).m_pop.getD i default).searchPoint =
              cexF.proposeStartingPoint i ∧
            ((({ cexState with m_pop := [] } : MOCMA).initF cexF
                  [99]).m_pop.getD i default).stepSize =
              ({ cexState with m_pop := [] } : MOCMA).m_initialSigma ∧
            ((({ cexState with m_pop := [] } : MOCMA).initF cexF
                  [99]).m_pop.getD i default).penalizedFitness =
              (({ cexState with m_pop := [] } : MOCMA).m_evaluator.evalPoint
                  cexF (cexF.proposeStartingPoint i)).1 ∧
            ((({ cexState with m_pop := [] } : MOCMA).initF cexF
                  [99]).m_pop.getD i default).unpenalizedFitness =
              (({ cexState with m_pop := [] } : MOCMA).m_evaluator.evalPoint
                  cexF (cexF.proposeStartingPoint i)).2) :=
  ⟨rfl, initF_allocates_and_evaluates { cexState with m_pop := [] } cexF [99]
    rfl⟩

/-- Unrolling one iteration of the offspring loop. -/
lemma generateOffspringAux_succ (ext : StepExternals) (f : ObjectiveFunction)
    (ev : PenalizingEvaluator) (mu : ℕ) (pop : List CMAIndividual)
    (rng : ℕ) (k : ℕ) :
    generateOffspringAux ext f ev mu pop rng (k + 1) =
      (let acc := generateOffspringAux ext f ev mu pop rng k
       let c := makeOffspring ext f ev (acc.1.getD k default) acc.2
       (acc.1.set (mu + k) c.1, c.2)) := by
  simp [generateOffspringAux, List.range_succ]

/-- Invariants of the offspring loop after `k` iterations: parents and the
not-yet-written offspring slots are untouched, the random state has advanced
through the first `k` mutations, and offspring slot `mu+i` (for `i < k`)
holds the mutated, age-reset, freshly evaluated copy of parent `i`. -/
lemma generateOffspringAux_spec (ext : StepExternals) (f : ObjectiveFunction)
    (ev : PenalizingEvaluator) (mu : ℕ) (pop : List CMAIndividual)
    (rng : ℕ) :
    ∀ k, k ≤ mu → mu + k ≤ pop.length →
      (generateOffspringAux ext f ev mu pop rng k).1.length = pop.length ∧
      (generateOffspringAux ext f ev mu pop rng k).2 =
        rngBefore ext f ev pop rng k ∧
      (∀ j, j < mu ∨ mu + k ≤ j →
        (generateOffspringAux ext f ev mu pop rng k).1.getD j default =
          pop.getD j default) ∧
      (∀ i, i < k →
        (generateOffspringAux ext f ev mu pop rng k).1.getD (mu + i) default =
          (makeOffspring ext f ev (pop.getD i default)
            (rngBefore ext f ev pop rng i)).1) := by
  intro k
  induction k with
  | zero =>
    intro _ _
    exact ⟨rfl, rfl, fun j _ => rfl, fun i hi => absurd hi (Nat.not_lt_zero i)⟩
  | succ k ih =>
    intro hk hlen
    obtain ⟨ihlen, ihrng, ihframe, ihoff⟩ :=
      ih (Nat.le_of_succ_le hk) (by omega)
    rw [generateOffspringAux_succ]
    have hread : (generateOffspringAux ext f ev mu pop rng k).1.getD k default =
        pop.getD k default :=
      ihframe k (Or.inl (by omega))
    have hc : makeOffspring ext f ev
        ((generateOffspringAux ext f ev mu pop rng k).1.getD k default)
        (generateOffspringAux ext f ev mu pop rng k).2 =
        makeOffspring ext f ev (pop.getD k default)
          (rngBefore ext f ev pop rng k) := by
      rw [hread, ihrng]
    refine ⟨?_, ?_, ?_, ?_⟩
    · simpa using ihlen
    · simp only []
      rw [hc]
      rfl
    · intro j hj
      simp only []
      rw [getD_set_ne' _ _ (by omega)]
      exact ihframe j (by omega)
    · intro i hi
      simp only []
      rcases Nat.lt_succ_iff_lt_or_eq.mp hi with hik | hik
      · rw [getD_set_ne' _ _ (by omega)]
        exact ihoff i hik
      · subst hik
        rw [hc, getD_set_self' _ _ _ (by omega)]

/-- C4: at the start of `step()`, for each `i < mu` the offspring slot
`mu+i` is overwritten with a copy of parent `i` which is then mutated, has
its age reset to 0, and is evaluated through the `PenalizingEvaluator` with
both the penalized and the unpenalized fitness vectors stored — all before
selection runs: `step` applies `select` only to the finished offspring
population.  The conclusion spells out the offspring slot as the literal
mutate / age-reset / evaluate composition applied to parent `i` and the
random state reached after the first `i` mutations, and records that the
parent slots are untouched by the loop. -/
theorem step_offspring_generation (ext : StepExternals)
    (f : ObjectiveFunction) (s : MOCMA) (rng : ℕ)
    (hlen : s.m_pop.length = 2 * s.mu) :
    (∀ i, i < s.mu →
      (generateOffspring ext f s.m_evaluator s.mu s.m_pop rng).1.getD
          (s.mu + i) default =
        (let m := ext.mutate
            (rngBefore ext f s.m_evaluator s.m_pop rng i)
            (s.m_pop.getD i default)
         let child := { m.1 with age := 0 }
         let r := s.m_evaluator.evalPoint f child.searchPoint
         { child with penalizedFitness := r.1, unpenalizedFitness := r.2 }) ∧
      (generateOffspring ext f s.m_evaluator s.mu s.m_pop rng).1.getD i
          default = s.m_pop.getD i default) ∧
    MOCMA.step ext f s rng =
      (let g := generateOffspring ext f s.m_evaluator s.mu s.m_pop rng
       let fin := finalizeLoop ext.update s.mu
         (stdPartition (fun ind => ind.selected)
           (successUpdate s.m_useNewUpdate s.mu (ext.select s.mu g.1)))
       (fin.2, { s with m_pop := fin.1 }, g.2)) := by
  obtain ⟨_, _, hframe, hoff⟩ :=
    generateOffspringAux_spec ext f s.m_evaluator s.mu s.m_pop rng s.mu
      le_rfl (by omega)
  refine ⟨fun i hi => ⟨?_, ?_⟩, rfl⟩
  · exact hoff i hi
  · exact hframe i (Or.inl hi)

/-- Witness for `step_offspring_generation` on the concrete state with
`mu = 2`. -/
theorem step_offspring_generation_witness :
    cexState.m_pop.length = 2 * cexState.mu ∧
      ((∀ i, i < cexState.mu →
        (generateOffspring cexExternals cexF cexState.m_evaluator cexState.mu
            cexState.m_pop 0).1.getD (cexState.mu + i) default =
          (let m := cexExternals.mutate
              (rngBefore cexExternals cexF cexState.m_evaluator cexState.m_pop
                0 i)
              (cexState.m_pop.getD i default)
           let child := { m.1 with age := 0 }
           let r := cexState.m_evaluator.evalPoint cexF child.searchPoint
           { child with
             penalizedFitness := r.1, unpenalizedFitness := r.2 }) ∧
        (generateOffspring cexExternals cexF cexState.m_evaluator cexState.mu
            cexState.m_pop 0).1.getD i default =
          cexState.m_pop.getD i default) ∧
      MOCMA.step cexExternals cexF cexState 0 =
        (let g := generateOffspring cexExternals cexF cexState.m_evaluator
            cexState.mu cexState.m_pop 0
         let fin := finalizeLoop cexExternals.update cexState.mu
           (stdPartition (fun ind => ind.selected)
             (successUpdate cexState.m_useNewUpdate cexState.mu
               (cexExternals.select cexState.mu g.1)))
         (fin.2, { cexState with m_pop := fin.1 }, g.2))) :=
  ⟨rfl, step_offspring_generation cexExternals cexF cexState 0 rfl⟩

/-- Length is preserved by one success credit. -/
lemma creditSuccess_length (pop : List CMAIndividual) (j : ℕ) :
    (creditSuccess pop j).length = pop.length := by
  simp [creditSuccess]

/-- Reading the credited cell. -/
lemma creditSuccess_getD_self (pop : List CMAIndividual) (j : ℕ)
    (h : j < pop.length) :
    (creditSuccess pop j).getD j default =
      { pop.getD j default with
        noSuccessfulOffspring :=
          (pop.getD j default).noSuccessfulOffspring + 1 } := by
  simp only [creditSuccess]
  exact getD_set_self' _ _ _ h

/-- Reading any other cell after a success credit. -/
lemma creditSuccess_getD_ne (pop : List CMAIndividual) {i j : ℕ}
    (h : i ≠ j) :
    (creditSuccess pop i).getD j default = pop.getD j default := by
  simp only [creditSuccess]
  exact getD_set_ne' _ _ h

/-- Unrolling one iteration of a success loop. -/
lemma successLoopAux_succ (cond : List CMAIndividual → ℕ → Bool) (mu : ℕ)
    (pop : List CMAIndividual) (k : ℕ) :
    successLoopAux cond mu pop (k + 1) =
      if cond (successLoopAux cond mu pop k) k then
        creditSuccess (creditSuccess (successLoopAux cond mu pop k) (mu + k)) k
      else successLoopAux cond mu pop k := by
  simp [successLoopAux, List.range_succ]

/-- Invariants of a success loop after `k` iterations, for a condition that
reads only the parent and offspring cells of its own index: untouched cells
keep their values, and for `i < k` the parent cell `i` and offspring cell
`mu+i` got their success counters incremented exactly when the condition
held on the original population. -/
lemma successLoopAux_spec (cond : List CMAIndividual → ℕ → Bool) (mu : ℕ)
    (pop : List CMAIndividual)
    (hcond : ∀ p q i, p.getD i default = q.getD i default →
      p.getD (mu + i) default = q.getD (mu + i) default →
      cond p i = cond q i) :
    ∀ k, k ≤ mu → mu + k ≤ pop.length →
      (successLoopAux cond mu pop k).length = pop.length ∧
      (∀ j, (k ≤ j ∧ j < mu) ∨ mu + k ≤ j →
        (successLoopAux cond mu pop k).getD j default = pop.getD j default) ∧
      (∀ i, i < k →
        (successLoopAux cond mu pop k).getD i default =
          (if cond pop i then
            { pop.getD i default with
              noSuccessfulOffspring :=
                (pop.getD i default).noSuccessfulOffspring + 1 }
          else pop.getD i default) ∧
        (successLoopAux cond mu pop k).getD (mu + i) default =
          (if cond pop i then
            { pop.getD (mu + i) default with
              noSuccessfulOffspring :=
                (pop.getD (mu + i) default).noSuccessfulOffspring + 1 }
          else pop.getD (mu + i) default)) := by
  intro k
  induction k with
  | zero =>
    intro _ _
    exact ⟨rfl, fun j _ => rfl, fun i hi => absurd hi (Nat.not_lt_zero i)⟩
  | succ k ih =>
    intro hk hlen
    obtain ⟨ihlen, ihframe, ihcell⟩ := ih (Nat.le_of_succ_le hk) (by omega)
    have hkmu : k < mu := hk
    have hreadP : (successLoopAux cond mu pop k).getD k default =
        pop.getD k default := ihframe k (Or.inl ⟨le_rfl, hkmu⟩)
    have hreadO : (successLoopAux cond mu pop k).getD (mu + k) default =
        pop.getD (mu + k) default := ihframe (mu + k) (Or.inr le_rfl)
    have hcondk : cond (successLoopAux cond mu pop k) k = cond pop k :=
      hcond _ _ k hreadP hreadO
    rw [successLoopAux_succ, hcondk]
    have hAlen :
        (creditSuccess (successLoopAux cond mu pop k) (mu + k)).length =
          pop.length := by
      rw [creditSuccess_length, ihlen]
    by_cases hc : cond pop k = true
    · rw [if_pos hc]
      have hAgetP :
          (creditSuccess (successLoopAux cond mu pop k) (mu + k)).getD k
            default = pop.getD k default := by
        rw [creditSuccess_getD_ne _ (by omega)]
        exact hreadP
      have hAgetO :
          (creditSuccess (successLoopAux cond mu pop k) (mu + k)).getD (mu + k)
            default =
            { pop.getD (mu + k) default with
              noSuccessfulOffspring :=
                (pop.getD (mu + k) default).noSuccessfulOffspring + 1 } := by
        rw [creditSuccess_getD_self _ _ (by omega), hreadO]
      refine ⟨?_, ?_, ?_⟩
      · rw [creditSuccess_length, hAlen]
      · intro j hj
        rw [creditSuccess_getD_ne _ (by omega),
          creditSuccess_getD_ne _ (by omega)]
        exact ihframe j (by omega)
      · intro i hi
        rcases Nat.lt_succ_iff_lt_or_eq.mp hi with hik | hik
        · refine ⟨?_, ?_⟩
          · rw [creditSuccess_getD_ne _ (by omega),
              creditSuccess_getD_ne _ (by omega)]
            exact (ihcell i hik).1
          · rw [creditSuccess_getD_ne _ (by omega),
              creditSuccess_getD_ne _ (by omega)]
            exact (ihcell i hik).2
        · subst hik
          refine ⟨?_, ?_⟩
          · rw [creditSuccess_getD_self _ _ (by omega), hAgetP, if_pos hc]
          · rw [creditSuccess_getD_ne _ (by omega), hAgetO, if_pos hc]
    · rw [if_neg hc]
      refine ⟨ihlen, ?_, ?_⟩
      · intro j hj
        exact ihframe j (by omega)
      · intro i hi
        rcases Nat.lt_succ_iff_lt_or_eq.mp hi with hik | hik
        · exact ihcell i hik
        · subst hik
          rw [if_neg hc, if_neg hc]
          exact ⟨hreadP, hreadO⟩

/-- C3: during `step()`, for every parent index `i < mu` the success loop
increments `noSuccessfulOffspring` by exactly 1 on both offspring `mu+i`
and parent `i` — leaving every other field of both untouched — precisely
when the configured success condition holds, and that condition is:
offspring selected with rank no worse than the parent's under the
individual-based notion (`m_useNewUpdate = false`), and offspring selected
regardless of rank under the population-based notion
(`m_useNewUpdate = true`). -/
theorem step_success_crediting (useNew : Bool) (mu : ℕ)
    (pop : List CMAIndividual) (i : ℕ) (hlen : pop.length = 2 * mu)
    (hi : i < mu) :
    (successUpdate useNew mu pop).getD (mu + i) default =
      (if offspringSuccessful useNew mu pop i then
        { pop.getD (mu + i) default with
          noSuccessfulOffspring :=
            (pop.getD (mu + i) default).noSuccessfulOffspring + 1 }
      else pop.getD (mu + i) default) ∧
    (successUpdate useNew mu pop).getD i default =
      (if offspringSuccessful useNew mu pop i then
        { pop.getD i default with
          noSuccessfulOffspring :=
            (pop.getD i default).noSuccessfulOffspring + 1 }
      else pop.getD i default) ∧
    (offspringSuccessful useNew mu pop i = true ↔
      (if useNew then (pop.getD (mu + i) default).selected = true
       else (pop.getD (mu + i) default).selected = true ∧
         (pop.getD (mu + i) default).rank ≤ (pop.getD i default).rank)) := by
  cases useNew with
  | false =>
    have hcond : ∀ (p q : List CMAIndividual) (j : ℕ),
        p.getD j default = q.getD j default →
        p.getD (mu + j) default = q.getD (mu + j) default →
        ((p.getD (mu + j) default).selected &&
            decide
              ((p.getD (mu + j) default).rank ≤ (p.getD j default).rank)) =
          ((q.getD (mu + j) default).selected &&
            decide
              ((q.getD (mu + j) default).rank ≤ (q.getD j default).rank)) := by
      intro p q j hp hq
      rw [hp, hq]
    obtain ⟨_, _, hcell⟩ :=
      successLoopAux_spec _ mu pop hcond mu le_rfl (by omega)
    have h := hcell i hi
    exact ⟨h.2, h.1, by simp [offspringSuccessful]⟩
  | true =>
    have hcond : ∀ (p q : List CMAIndividual) (j : ℕ),
        p.getD j default = q.getD j default →
        p.getD (mu + j) default = q.getD (mu + j) default →
        (p.getD (mu + j) default).selected =
          (q.getD (mu + j) default).selected := by
      intro p q j _ hq
      rw [hq]
    obtain ⟨_, _, hcell⟩ :=
      successLoopAux_spec _ mu pop hcond mu le_rfl (by omega)
    have h := hcell i hi
    exact ⟨h.2, h.1, by simp [offspringSuccessful]⟩

/-- Witness for `step_success_crediting`: `mu = 2`, individual-based
notion, a population whose offspring 2 is selected with equal rank. -/
theorem step_success_crediting_witness :
    ([mkParent 0, mkParent 1, { mkParent 2 with selected := true },
        mkParent 3] : List CMAIndividual).length = 2 * 2 ∧
      0 < 2 ∧
      ((successUpdate false 2
            [mkParent 0, mkParent 1, { mkParent 2 with selected := true },
              mkParent 3]).getD (2 + 0) default =
        (if offspringSuccessful false 2
              [mkParent 0, mkParent 1, { mkParent 2 with selected := true },
                mkParent 3] 0 then
          { ([mkParent 0, mkParent 1,
                { mkParent 2 with selected := true }, mkParent 3] :
                List CMAIndividual).getD (2 + 0) default with
            noSuccessfulOffspring :=
              (([mkParent 0, mkParent 1,
                  { mkParent 2 with selected := true }, mkParent 3] :
                  List CMAIndividual).getD (2 + 0)
                  default).noSuccessfulOffspring + 1 }
        else
          ([mkParent 0, mkParent 1, { mkParent 2 with selected := true },
              mkParent 3] : List CMAIndividual).getD (2 + 0) default) ∧
      (successUpdate false 2
            [mkParent 0, mkParent 1, { mkParent 2 with selected := true },
              mkParent 3]).getD 0 default =
        (if offspringSuccessful false 2
              [mkParent 0, mkParent 1, { mkParent 2 with selected := true },
                mkParent 3] 0 then
          { ([mkParent 0, mkParent 1,
                { mkParent 2 with selected := true }, mkParent 3] :
                List CMAIndividual).getD 0 default with
            noSuccessfulOffspring :=
              (([mkParent 0, mkParent 1,
                  { mkParent 2 with selected := true }, mkParent 3] :
                  List CMAIndividual).getD 0
                  default).noSuccessfulOffspring + 1 }
        else
          ([mkParent 0, mkParent 1, { mkParent 2 with selected := true },
              mkParent 3] : List CMAIndividual).getD 0 default) ∧
      (offspringSuccessful false 2
            [mkParent 0, mkParent 1, { mkParent 2 with selected := true },
              mkParent 3] 0 = true ↔
        (if false then
          (([mkParent 0, mkParent 1, { mkParent 2 with selected := true },
              mkParent 3] : List CMAIndividual).getD (2 + 0)
              default).selected = true
        else
          (([mkParent 0, mkParent 1, { mkParent 2 with selected := true },
              mkParent 3] : List CMAIndividual).getD (2 + 0)
              default).selected = true ∧
            (([mkParent 0, mkParent 1,
                { mkParent 2 with selected := true }, mkParent 3] :
                List CMAIndividual).getD (2 + 0) default).rank ≤
              (([mkParent 0, mkParent 1,
                  { mkParent 2 with selected := true }, mkParent 3] :
                  List CMAIndividual).getD 0 default).rank))) :=
  ⟨rfl, by decide,
    step_success_crediting false 2
      [mkParent 0, mkParent 1, { mkParent 2 with selected := true },
        mkParent 3] 0 rfl (by decide)⟩

/-- Setting a cell to its own value is the identity. -/
lemma set_getElem_self'' {α : Type} (l : List α) (i : ℕ) (h : i < l.length) :
    l.set i l[i] = l := by
  apply List.ext_getElem
  · simp
  · intro n h1 h2
    rw [List.getElem_set]
    split
    · subst ‹i = n›
      rfl
    · rfl

/-- Exchanging an element with one further right is a permutation. -/
lemma middle_swap_perm {α : Type} (x y : α) (M R : List α) :
    List.Perm (y :: (M ++ x :: R)) (x :: (M ++ y :: R)) :=
  (List.Perm.cons y List.perm_middle).trans
    ((List.Perm.swap x y (M ++ R)).trans
      (List.Perm.cons x List.perm_middle.symm))

/-- The two writes of a swap, in index order, permute the list. -/
lemma swap_sets_perm {α : Type} (l : List α) (i m : ℕ)
    (hj : i + 1 + m < l.length) :
    List.Perm ((l.set i l[i+1+m]).set (i+1+m) l[i]) l := by
  have hi : i < l.length := by omega
  have hTlen : (l.drop (i+1)).length = l.length - (i+1) := by simp
  have hm : m < (l.drop (i+1)).length := by omega
  have hb : l[i+1+m] = (l.drop (i+1))[m] := by
    rw [List.getElem_drop]
  have h1 : l.set i l[i+1+m] =
      l.take i ++ l[i+1+m] :: l.drop (i+1) :=
    List.set_eq_take_cons_drop _ hi
  have hAlen : (l.take i).length = i := by
    simp [List.length_take, Nat.min_eq_left (Nat.le_of_lt hi)]
  have h2 : (l.take i ++ l[i+1+m] :: l.drop (i+1)).set (i+1+m) l[i] =
      l.take i ++ (l[i+1+m] :: l.drop (i+1)).set (m+1) l[i] := by
    rw [List.set_append_right _ _ (by omega)]
    congr 2
    omega
  have h3 : (l[i+1+m] :: l.drop (i+1)).set (m+1) l[i] =
      l[i+1+m] :: (l.drop (i+1)).set m l[i] := by
    simp [List.set]
  have h4 : (l.drop (i+1)).set m l[i] =
      (l.drop (i+1)).take m ++ l[i] :: (l.drop (i+1)).drop (m+1) :=
    List.set_eq_take_cons_drop _ hm
  have h5 : l = l.take i ++ l[i] :: ((l.drop (i+1)).take m ++
      (l.drop (i+1))[m] :: (l.drop (i+1)).drop (m+1)) := by
    conv_lhs => rw [← List.take_append_drop i l]
    congr 1
    rw [List.drop_eq_getElem_cons hi]
    congr 1
    conv_lhs => rw [← List.take_append_drop m (l.drop (i+1))]
    congr 1
    rw [List.drop_eq_getElem_cons hm]
  rw [h1, h2, h3, h4, hb]
  conv_rhs => rw [h5]
  exact List.Perm.append_left _
    (middle_swap_perm l[i] (l.drop (i+1))[m] _ _)

/-- `listSwap` preserves length. -/
lemma listSwap_length {α : Type} [Inhabited α] (l : List α) (i j : ℕ) :
    (listSwap l i j).length = l.length := by
  simp [listSwap]

/-- After a swap, position `i` holds the old value of position `j`. -/
lemma listSwap_getD_left {α : Type} [Inhabited α] (l : List α) {i j : ℕ}
    (hi : i < l.length) (hij : i ≠ j) :
    (listSwap l i j).getD i default = l.getD j default := by
  unfold listSwap
  rw [getD_set_ne' _ _ (Ne.symm hij), getD_set_self' _ _ _ hi]

/-- After a swap, position `j` holds the old value of position `i`. -/
lemma listSwap_getD_right {α : Type} [Inhabited α] (l : List α) {i j : ℕ}
    (hj : j < l.length) :
    (listSwap l i j).getD j default = l.getD i default := by
  unfold listSwap
  rw [getD_set_self' _ _ _ (by simpa using hj)]

/-- A swap leaves every other position unchanged. -/
lemma listSwap_getD_ne {α : Type} [Inhabited α] (l : List α) {i j t : ℕ}
    (h1 : t ≠ i) (h2 : t ≠ j) :
    (listSwap l i j).getD t default = l.getD t default := by
  unfold listSwap
  rw [getD_set_ne' _ _ (Ne.symm h2), getD_set_ne' _ _ (Ne.symm h1)]

/-- A swap of two in-bounds positions is a permutation. -/
lemma listSwap_perm {α : Type} [Inhabited α] (l : List α) (i j : ℕ)
    (hi : i < l.length) (hj : j < l.length) :
    List.Perm (listSwap l i j) l := by
  unfold listSwap
  rw [getD_eq_getElem' l i hi, getD_eq_getElem' l j hj]
  rcases Nat.lt_trichotomy i j with hij | hij | hij
  · obtain ⟨m, rfl⟩ : ∃ m, j = i + 1 + m := ⟨j - (i+1), by omega⟩
    exact swap_sets_perm l i m hj
  · subst hij
    rw [List.set_set, set_getElem_self'' l i hi]
  · rw [List.set_comm _ _ _ (by omega : i ≠ j)]
    obtain ⟨m, rfl⟩ : ∃ m, i = j + 1 + m := ⟨i - (j+1), by omega⟩
    exact swap_sets_perm l j m hi

/-- The downward scan finds a `p`-satisfying index (when it moves), skips
only `p`-failing cells, and stays within `[first, j]`. -/
lemma scanDown_spec {α : Type} [Inhabited α] (p : α → Bool) (l : List α)
    (first : ℕ) :
    ∀ j, first ≤ j →
      first ≤ scanDown p l first j ∧ scanDown p l first j ≤ j ∧
      (first < scanDown p l first j →
        p (l.getD (scanDown p l first j) default) = true) ∧
      (∀ t, scanDown p l first j < t → t ≤ j →
        p (l.getD t default) = false) := by
  intro j
  induction j with
  | zero =>
    intro h
    simp only [scanDown]
    exact ⟨le_rfl, h, fun h' => absurd h' (lt_irrefl first),
      fun t ht1 ht2 => by omega⟩
  | succ j ih =>
    intro h
    by_cases h1 : first < j + 1
    · by_cases h2 : p (l.getD (j + 1) default) = true
      · simp only [scanDown, if_pos h1, if_pos h2]
        exact ⟨by omega, le_rfl, fun _ => h2, by omega⟩
      · simp only [scanDown, if_pos h1, if_neg h2]
        obtain ⟨a, b, c, d⟩ := ih (by omega)
        refine ⟨a, by omega, c, ?_⟩
        intro t ht1 ht2
        rcases Nat.lt_succ_iff_lt_or_eq.mp (Nat.lt_succ_of_le ht2) with h3 | h3
        · exact d t ht1 (by omega)
        · subst h3
          simpa using h2
    · simp only [scanDown, if_neg h1]
      exact ⟨le_rfl, by omega, fun h' => absurd h' (lt_irrefl first),
        fun t ht1 ht2 => by omega⟩

/-- Unrolling the two-pointer partition once. -/
lemma partAux_succ {α : Type} [Inhabited α] (p : α → Bool) (fuel : ℕ)
    (l : List α) (first last : ℕ) :
    partAux p (fuel + 1) l first last =
      if first < last then
        if p (l.getD first default) then partAux p fuel l (first + 1) last
        else
          if first = scanDown p l first (last - 1) then l
          else
            partAux p fuel (listSwap l first (scanDown p l first (last - 1)))
              (first + 1) (scanDown p l first (last - 1))
      else l := rfl

/-- Main invariant of the two-pointer partition: with enough fuel, an
all-`p` prefix `[0, first)` and an all-non-`p` suffix `[last, length)`, the
loop returns a permutation of its input that is split at some `m` in
`[first, last]` into an all-`p` prefix and an all-non-`p` suffix. -/
lemma partAux_spec {α : Type} [Inhabited α] (p : α → Bool) :
    ∀ (fuel : ℕ) (l : List α) (first last : ℕ),
      last - first ≤ fuel → first ≤ last → last ≤ l.length →
      (∀ t, t < first → p (l.getD t default) = true) →
      (∀ t, last ≤ t → t < l.length → p (l.getD t default) = false) →
      ∃ m, first ≤ m ∧ m ≤ last ∧
        List.Perm (partAux p fuel l first last) l ∧
        (∀ t, t < m → p ((partAux p fuel l first last).getD t default) = true) ∧
        (∀ t, m ≤ t → t < l.length →
          p ((partAux p fuel l first last).getD t default) = false) := by
  intro fuel
  induction fuel with
  | zero =>
    intro l first last hfl hfirstlast hlast hlow hhigh
    have heq : first = last := by omega
    subst heq
    exact ⟨first, le_rfl, le_rfl, List.Perm.refl _, hlow, hhigh⟩
  | succ fuel ih =>
    intro l first last hfl hfirstlast hlast hlow hhigh
    rw [partAux_succ]
    by_cases hfl2 : first < last
    · rw [if_pos hfl2]
      by_cases hp : p (l.getD first default) = true
      · rw [if_pos hp]
        obtain ⟨m, hm1, hm2, hperm, hlo, hhi⟩ := ih l (first + 1) last
          (by omega) (by omega) hlast
          (fun t ht => by
            rcases Nat.lt_succ_iff_lt_or_eq.mp ht with h | h
            · exact hlow t h
            · subst h
              exact hp)
          hhigh
        exact ⟨m, by omega, hm2, hperm, hlo, hhi⟩
      · rw [if_neg hp]
        obtain ⟨sc1, sc2, sc3, sc4⟩ :=
          scanDown_spec p l first (last - 1) (by omega)
        by_cases he : first = scanDown p l first (last - 1)
        · rw [if_pos he]
          refine ⟨first, le_rfl, by omega, List.Perm.refl _, hlow, ?_⟩
          intro t ht1 ht2
          rcases Nat.lt_or_ge t last with h | h
          · rcases Nat.eq_or_lt_of_le ht1 with h2 | h2
            · rw [← h2]
              simpa using hp
            · exact sc4 t (he ▸ h2) (by omega)
          · exact hhigh t h ht2
        · rw [if_neg he]
          have hfs : first < scanDown p l first (last - 1) := by omega
          have hsl : scanDown p l first (last - 1) < l.length := by omega
          have hfirstlen : first < l.length := by omega
          have hswlen :
              (listSwap l first (scanDown p l first (last - 1))).length =
                l.length := listSwap_length l _ _
          obtain ⟨m, hm1, hm2, hperm, hlo, hhi⟩ := ih
            (listSwap l first (scanDown p l first (last - 1)))
            (first + 1) (scanDown p l first (last - 1))
            (by omega) (by omega) (by omega)
            (fun t ht => by
              rcases Nat.lt_succ_iff_lt_or_eq.mp ht with h | h
              · rw [listSwap_getD_ne l (by omega) (by omega)]
                exact hlow t h
              · subst h
                rw [listSwap_getD_left l hfirstlen (by omega)]
                exact sc3 hfs)
            (fun t ht1 ht2 => by
              rw [hswlen] at ht2
              rcases Nat.eq_or_lt_of_le ht1 with h2 | h2
              · rw [← h2, listSwap_getD_right l hsl]
                simpa using hp
              · rcases Nat.lt_or_ge t last with h3 | h3
                · rw [listSwap_getD_ne l (by omega) (by omega)]
                  exact sc4 t h2 (by omega)
                · rw [listSwap_getD_ne l (by omega) (by omega)]
                  exact hhigh t h3 ht2)
          refine ⟨m, by omega, by omega, ?_, hlo, ?_⟩
          · exact hperm.trans (listSwap_perm l first _ hfirstlen hsl)
          · intro t ht1 ht2
            exact hhi t ht1 (by omega)
    · rw [if_neg hfl2]
      have heq : first = last := by omega
      subst heq
      exact ⟨first, le_rfl, le_rfl, List.Perm.refl _, hlow, hhigh⟩

/-- `std::partition` over a whole list: the result is a permutation of the
input whose first `countP p` cells all satisfy `p` and whose remaining
cells all fail it — every `p`-element ends up in the front block. -/
lemma stdPartition_spec {α : Type} [Inhabited α] (p : α → Bool)
    (l : List α) :
    List.Perm (stdPartition p l) l ∧
    (∀ t, t < l.countP p →
      p ((stdPartition p l).getD t default) = true) ∧
    (∀ t, l.countP p ≤ t → t < l.length →
      p ((stdPartition p l).getD t default) = false) := by
  obtain ⟨m, hm1, hm2, hperm, hlo, hhi⟩ :=
    partAux_spec p l.length l 0 l.length le_rfl (Nat.zero_le _) le_rfl
      (fun t ht => absurd ht (Nat.not_lt_zero t))
      (fun t ht1 ht2 => absurd ht1 (by omega))
  have hfold : partAux p l.length l 0 l.length = stdPartition p l := rfl
  rw [hfold] at hperm hlo hhi
  have hlen : (stdPartition p l).length = l.length := hperm.length_eq
  have hmlen : m ≤ (stdPartition p l).length := by omega
  have htakelen : ((stdPartition p l).take m).length = m := by
    simp [List.length_take, Nat.min_eq_left hmlen]
  have htake : ((stdPartition p l).take m).countP p = m := by
    rw [List.countP_eq_length.mpr, htakelen]
    intro a ha
    obtain ⟨t, ht, rfl⟩ := List.mem_iff_getElem.mp ha
    rw [List.getElem_take]
    have ht' : t < (stdPartition p l).length := by
      rw [htakelen] at ht
      omega
    rw [← getD_eq_getElem' _ t ht']
    exact hlo t (by rwa [htakelen] at ht)
  have hdrop : ((stdPartition p l).drop m).countP p = 0 := by
    rw [List.countP_eq_zero]
    intro a ha
    obtain ⟨t, ht, rfl⟩ := List.mem_iff_getElem.mp ha
    rw [List.getElem_drop]
    have ht' : m + t < (stdPartition p l).length := by
      simp [List.length_drop] at ht
      omega
    rw [← getD_eq_getElem' _ _ ht']
    simp only [Bool.not_eq_true]
    exact hhi (m + t) (by omega) (by omega)
  have hcount : l.countP p = m := by
    rw [← hperm.countP_eq p]
    conv_lhs => rw [← List.take_append_drop m (stdPartition p l)]
    rw [List.countP_append, htake, hdrop]
    omega
  rw [hcount]
  exact ⟨hperm, hlo, hhi⟩

/-- `getD` on an append, inside the left part. -/
lemma getD_append_left' {α : Type} [Inhabited α] (l₁ l₂ : List α) (i : ℕ)
    (h : i < l₁.length) :
    (l₁ ++ l₂).getD i default = l₁.getD i default := by
  simp [List.getD_eq_getElem?_getD, List.getElem?_append, h]

/-- `getD` of a just-appended element. -/
lemma getD_append_singleton {α : Type} [Inhabited α] (l : List α) (x : α) :
    (l ++ [x]).getD l.length default = x := by
  simp [List.getD_eq_getElem?_getD, List.getElem?_append_right le_rfl]

/-- Two lists of the same length and pointwise equal `p`-values have the
same `countP`. -/
lemma countP_eq_of_pointwise {α : Type} [Inhabited α] (p : α → Bool) :
    ∀ (l₁ l₂ : List α), l₁.length = l₂.length →
      (∀ t, t < l₁.length →
        p (l₁.getD t default) = p (l₂.getD t default)) →
      l₁.countP p = l₂.countP p := by
  intro l₁
  induction l₁ with
  | nil =>
    intro l₂ hlen _
    have : l₂ = [] := List.eq_nil_of_length_eq_zero hlen.symm
    subst this
    rfl
  | cons a l ih =>
    intro l₂ hlen hpt
    cases l₂ with
    | nil => simp at hlen
    | cons b l' =>
      have h0 : p a = p b := hpt 0 (by simp)
      have htail : l.countP p = l'.countP p := by
        refine ih l' (by simpa using hlen) ?_
        intro t ht
        exact hpt (t + 1) (by simpa using Nat.succ_lt_succ ht)
      rw [List.countP_cons, List.countP_cons, h0, htail]

/-- The success-determination phase preserves the population length and the
number of selected individuals (it only touches success counters). -/
lemma successUpdate_countP_selected (useNew : Bool) (mu : ℕ)
    (pop : List CMAIndividual) (hlen : 2 * mu ≤ pop.length) :
    (successUpdate useNew mu pop).length = pop.length ∧
    (successUpdate useNew mu pop).countP (fun ind => ind.selected) =
      pop.countP (fun ind => ind.selected) := by
  have key : ∀ (cond : List CMAIndividual → ℕ → Bool),
      (∀ p q i, p.getD i default = q.getD i default →
        p.getD (mu + i) default = q.getD (mu + i) default →
        cond p i = cond q i) →
      (successLoopAux cond mu pop mu).length = pop.length ∧
      (successLoopAux cond mu pop mu).countP (fun ind => ind.selected) =
        pop.countP (fun ind => ind.selected) := by
    intro cond hcond
    obtain ⟨slen, sframe, scell⟩ :=
      successLoopAux_spec cond mu pop hcond mu le_rfl (by omega)
    refine ⟨slen, countP_eq_of_pointwise _ _ _ slen ?_⟩
    intro t ht
    rw [slen] at ht
    rcases Nat.lt_or_ge t mu with h1 | h1
    · rw [(scell t h1).1]
      split <;> rfl
    · rcases Nat.lt_or_ge t (2 * mu) with h2 | h2
      · have hidx : mu + (t - mu) = t := by omega
        have := (scell (t - mu) (by omega)).2
        rw [hidx] at this
        rw [this]
        split <;> rfl
      · rw [sframe t (Or.inr (by omega))]
  cases useNew with
  | false =>
    exact key _ (fun p q i hp hq => by rw [hp, hq])
  | true =>
    exact key _ (fun p q i _ hq => by rw [hq])

/-- Unrolling one iteration of the final loop. -/
lemma finalizeLoopAux_succ (update : CMAIndividual → CMAIndividual) (mu : ℕ)
    (pop : List CMAIndividual) (k : ℕ) :
    finalizeLoopAux update mu pop (k + 1) =
      (let acc := finalizeLoopAux update mu pop k
       let prev := acc.1.getD k default
       let ind := update { prev with age := prev.age + 1 }
       (acc.1.set k ind,
        acc.2 ++ [(ind.searchPoint, ind.unpenalizedFitness)])) := by
  simp [finalizeLoopAux, List.range_succ]

/-- Invariants of the final loop after `k` iterations: cells at or beyond
`k` are untouched, the solution list has one entry per processed index, and
processed cell `i` holds the aged-and-updated survivor whose search point
and unpenalized fitness were appended as entry `i`. -/
lemma finalizeLoopAux_spec (update : CMAIndividual → CMAIndividual) (mu : ℕ)
    (pop : List CMAIndividual) :
    ∀ k, k ≤ mu → mu ≤ pop.length →
      (finalizeLoopAux update mu pop k).1.length = pop.length ∧
      (∀ j, k ≤ j →
        (finalizeLoopAux update mu pop k).1.getD j default =
          pop.getD j default) ∧
      (finalizeLoopAux update mu pop k).2.length = k ∧
      (∀ i, i < k →
        (finalizeLoopAux update mu pop k).1.getD i default =
          update { pop.getD i default with
            age := (pop.getD i default).age + 1 } ∧
        (finalizeLoopAux update mu pop k).2.getD i default =
          ((update { pop.getD i default with
              age := (pop.getD i default).age + 1 }).searchPoint,
           (update { pop.getD i default with
              age := (pop.getD i default).age + 1 }).unpenalizedFitness)) := by
  intro k
  induction k with
  | zero =>
    intro _ _
    exact ⟨rfl, fun j _ => rfl, rfl,
      fun i hi => absurd hi (Nat.not_lt_zero i)⟩
  | succ k ih =>
    intro hk hmu
    obtain ⟨ihlen, ihframe, ihsols, ihcell⟩ := ih (by omega) hmu
    have hread : (finalizeLoopAux update mu pop k).1.getD k default =
        pop.getD k default := ihframe k le_rfl
    rw [finalizeLoopAux_succ]
    simp only []
    rw [hread]
    refine ⟨?_, ?_, ?_, ?_⟩
    · simpa using ihlen
    · intro j hj
      rw [getD_set_ne' _ _ (by omega)]
      exact ihframe j (by omega)
    · simpa using ihsols
    · intro i hi
      rcases Nat.lt_succ_iff_lt_or_eq.mp hi with hik | hik
      · refine ⟨?_, ?_⟩
        · rw [getD_set_ne' _ _ (by omega)]
          exact (ihcell i hik).1
        · rw [getD_append_left' _ _ i (by omega)]
          exact (ihcell i hik).2
      · subst hik
        refine ⟨?_, ?_⟩
        · rw [getD_set_self' _ _ _ (by omega)]
        · have hsing := getD_append_singleton
            ((finalizeLoopAux update mu pop i).2)
            ((update { pop.getD i default with
                age := (pop.getD i default).age + 1 }).searchPoint,
             (update { pop.getD i default with
                age := (pop.getD i default).age + 1 }).unpenalizedFitness)
          rw [ihsols] at hsing
          exact hsing

/-- Invariants of the tail of `MOCMA::step` (success loop, `std::partition`,
final loop) for any population `pop2` of `2*mu` individuals of which exactly
`mu` are selected, and any update operator that does not touch the selection
flag: the final population keeps length `2*mu` with exactly `mu` selected,
all of them in the front block `[0, mu)`; the solution set has length `mu`,
and its entry `i` is the search point and unpenalized fitness of the
aged-and-updated survivor stored at slot `i`. -/
lemma selectionTail_spec (useNew : Bool) (mu : ℕ)
    (upd : CMAIndividual → CMAIndividual) (pop2 : List CMAIndividual)
    (h2len : pop2.length = 2 * mu)
    (h2cnt : pop2.countP (fun ind => ind.selected) = mu)
    (hupd : ∀ ind, (upd ind).selected = ind.selected) :
    (finalizeLoopAux upd mu (stdPartition (fun ind => ind.selected)
        (successUpdate useNew mu pop2)) mu).1.length = 2 * mu ∧
    (finalizeLoopAux upd mu (stdPartition (fun ind => ind.selected)
        (successUpdate useNew mu pop2)) mu).1.countP (fun ind => ind.selected) =
      mu ∧
    (finalizeLoopAux upd mu (stdPartition (fun ind => ind.selected)
        (successUpdate useNew mu pop2)) mu).2.length = mu ∧
    (∀ i, i < mu →
      (finalizeLoopAux upd mu (stdPartition (fun ind => ind.selected)
        (successUpdate useNew mu pop2)) mu).1.getD i default =
        upd { (stdPartition (fun ind => ind.selected)
        (successUpdate useNew mu pop2)).getD i default with
          age := ((stdPartition (fun ind => ind.selected)
        (successUpdate useNew mu pop2)).getD i default).age + 1 } ∧
      (finalizeLoopAux upd mu (stdPartition (fun ind => ind.selected)
        (successUpdate useNew mu pop2)) mu).2.getD i default =
        ((upd { (stdPartition (fun ind => ind.selected)
        (successUpdate useNew mu pop2)).getD i default with
            age := ((stdPartition (fun ind => ind.selected)
        (successUpdate useNew mu pop2)).getD i default).age + 1 }).searchPoint,
         (upd { (stdPartition (fun ind => ind.selected)
        (successUpdate useNew mu pop2)).getD i default with
            age := ((stdPartition (fun ind => ind.selected)
        (successUpdate useNew mu pop2)).getD i default).age + 1 }).unpenalizedFitness)) ∧
    (∀ i, i < mu →
      ((finalizeLoopAux upd mu (stdPartition (fun ind => ind.selected)
        (successUpdate useNew mu pop2)) mu).1.getD i default).selected =
        true) ∧
    (∀ j, mu ≤ j → j < 2 * mu →
      ((finalizeLoopAux upd mu (stdPartition (fun ind => ind.selected)
        (successUpdate useNew mu pop2)) mu).1.getD j default).selected =
        false) := by
  have h2le : 2 * mu ≤ pop2.length := by omega
  obtain ⟨h3len, h3cnt⟩ := successUpdate_countP_selected useNew mu pop2 h2le
  obtain ⟨hperm, hlo, hhi⟩ :=
    stdPartition_spec (fun ind => ind.selected) (successUpdate useNew mu pop2)
  have h3cnt' : (successUpdate useNew mu pop2).countP
      (fun ind => ind.selected) = mu := by
    rw [h3cnt, h2cnt]
  have h4len : (stdPartition (fun ind => ind.selected)
        (successUpdate useNew mu pop2)).length = 2 * mu := by
    rw [hperm.length_eq, h3len, h2len]
  have h4cnt : (stdPartition (fun ind => ind.selected)
        (successUpdate useNew mu pop2)).countP (fun ind => ind.selected) = mu := by
    rw [hperm.countP_eq, h3cnt']
  obtain ⟨flen, fframe, fsols, fcell⟩ :=
    finalizeLoopAux_spec upd mu (stdPartition (fun ind => ind.selected)
        (successUpdate useNew mu pop2)) mu le_rfl (by omega)
  have hElem : ∀ i, i < mu →
      ((finalizeLoopAux upd mu (stdPartition (fun ind => ind.selected)
        (successUpdate useNew mu pop2)) mu).1.getD i default).selected =
        ((stdPartition (fun ind => ind.selected)
        (successUpdate useNew mu pop2)).getD i default).selected := by
    intro i hi
    rw [(fcell i hi).1, hupd]
  refine ⟨?_, ?_, fsols, fcell, ?_, ?_⟩
  · rw [flen, h4len]
  · rw [countP_eq_of_pointwise _ _ (stdPartition (fun ind => ind.selected)
        (successUpdate useNew mu pop2)) flen ?_, h4cnt]
    intro t ht
    rw [flen] at ht
    rcases Nat.lt_or_ge t mu with h1 | h1
    · exact hElem t h1
    · rw [fframe t h1]
  · intro i hi
    rw [hElem i hi]
    exact hlo i (by rw [h3cnt']; exact hi)
  · intro j hj1 hj2
    rw [fframe j hj1]
    exact hhi j (by rw [h3cnt']; exact hj1) (by rw [h3len, h2len]; exact hj2)

/-- C1 counterexample: `std::partition` (line 264 of `MOCMA.h`) is not a
stable partition.  With `mu = 2`, the appending mutation, and the flag
pattern reachable when parent 0 is displaced by its offspring and
offspring 1 is displaced by its parent, the two survivors enter the
partition in the order `[1]`, `[0, 9]` (search points) but occupy `[0, mu)`
after `step()` in the opposite order `[0, 9]`, `[1]` — a stable partition
would have preserved the order, producing exactly the filtered survivor
list. -/
theorem step_partition_not_stable_cex :
    ((successUpdate cexState.m_useNewUpdate cexState.mu
        (cexExternals.select cexState.mu (generateOffspring cexExternals cexF
        cexState.m_evaluator cexState.mu cexState.m_pop 0).1)).filter
        (fun ind => ind.selected)).map (fun ind => ind.searchPoint) =
      [[1], [0, 9]] ∧
    ((MOCMA.step cexExternals cexF cexState 0).2.1.m_pop.take 2).map
        (fun ind => ind.searchPoint) = [[0, 9], [1]] ∧
    ((MOCMA.step cexExternals cexF cexState 0).2.1.m_pop.take 2).map
        (fun ind => ind.searchPoint) ≠
      ((successUpdate cexState.m_useNewUpdate cexState.mu
        (cexExternals.select cexState.mu (generateOffspring cexExternals cexF
        cexState.m_evaluator cexState.mu cexState.m_pop 0).1)).filter
        (fun ind => ind.selected)).map (fun ind => ind.searchPoint) := by
  refine ⟨?_, ?_, ?_⟩ <;> decide

/-- C1 amended: after each `step()` the selected individuals occupy the
indices `[0, mu)` (and only those), provided selection marked exactly `mu`
of the `2*mu` individuals and the step-size update does not touch the
selection flag — but the partition is `std::partition`, which need not
preserve the relative order of the survivors. -/
theorem step_partitions_selected_to_front (ext : StepExternals)
    (f : ObjectiveFunction) (s : MOCMA) (rng : ℕ)
    (hsellen : (ext.select s.mu (generateOffspring ext f s.m_evaluator s.mu
      s.m_pop rng).1).length = 2 * s.mu)
    (hselcount : (ext.select s.mu (generateOffspring ext f s.m_evaluator s.mu
      s.m_pop rng).1).countP (fun ind => ind.selected) = s.mu)
    (hupd : ∀ ind, (ext.update ind).selected = ind.selected) :
    (∀ i, i < s.mu →
        ((MOCMA.step ext f s rng).2.1.m_pop.getD i
            default).selected = true) ∧
      (∀ j, s.mu ≤ j → j < 2 * s.mu →
        ((MOCMA.step ext f s rng).2.1.m_pop.getD j
            default).selected = false) := by
  have hrfl : (MOCMA.step ext f s rng).2.1.m_pop =
      (finalizeLoopAux ext.update s.mu (stdPartition (fun ind => ind.selected)
        (successUpdate s.m_useNewUpdate s.mu (ext.select s.mu
          (generateOffspring ext f s.m_evaluator s.mu
            s.m_pop rng).1))) s.mu).1 := rfl
  obtain ⟨_, _, _, _, hE, hF⟩ := selectionTail_spec s.m_useNewUpdate s.mu
    ext.update (ext.select s.mu (generateOffspring ext f s.m_evaluator s.mu
      s.m_pop rng).1) hsellen hselcount hupd
  simp only [hrfl]
  exact ⟨hE, hF⟩

/-- Witness for `step_partitions_selected_to_front` on the concrete
scenario of the counterexample. -/
theorem step_partitions_selected_to_front_witness :
    ((cexExternals.select cexState.mu (generateOffspring cexExternals cexF
        cexState.m_evaluator cexState.mu cexState.m_pop 0).1).length = 2 * cexState.mu ∧
      (cexExternals.select cexState.mu (generateOffspring cexExternals cexF
        cexState.m_evaluator cexState.mu cexState.m_pop 0).1).countP (fun ind => ind.selected) = cexState.mu) ∧
      ((∀ i, i < cexState.mu →
        ((MOCMA.step cexExternals cexF cexState 0).2.1.m_pop.getD i
            default).selected = true) ∧
      (∀ j, cexState.mu ≤ j → j < 2 * cexState.mu →
        ((MOCMA.step cexExternals cexF cexState 0).2.1.m_pop.getD j
            default).selected = false)) :=
  ⟨⟨by decide, by decide⟩,
    step_partitions_selected_to_front cexExternals cexF cexState 0
      (by decide) (by decide) (fun ind => rfl)⟩

/-- C2: after `step()` (with selection marking exactly `mu` of the `2*mu`
individuals, per its contract, and an update operator that leaves the
selection flag alone), the population still has `2*mu` individuals of which
exactly `mu` are selected, and the returned solution set has size exactly
`mu`: its entry `i` is the pair (searchPoint, unpenalizedFitness) of the
surviving individual stored at slot `i`, read after that survivor's age was
incremented and `update()` was applied — so the appended pair reflects the
updated individual. -/
theorem step_returns_mu_solutions (ext : StepExternals)
    (f : ObjectiveFunction) (s : MOCMA) (rng : ℕ)
    (hsellen : (ext.select s.mu (generateOffspring ext f s.m_evaluator s.mu
      s.m_pop rng).1).length = 2 * s.mu)
    (hselcount : (ext.select s.mu (generateOffspring ext f s.m_evaluator s.mu
      s.m_pop rng).1).countP (fun ind => ind.selected) = s.mu)
    (hupd : ∀ ind, (ext.update ind).selected = ind.selected) :
    (MOCMA.step ext f s rng).2.1.m_pop.length = 2 * s.mu ∧
      (MOCMA.step ext f s rng).2.1.m_pop.countP
        (fun ind => ind.selected) = s.mu ∧
      (MOCMA.step ext f s rng).1.length = s.mu ∧
      (∀ i, i < s.mu →
        (MOCMA.step ext f s rng).2.1.m_pop.getD i default =
          ext.update { (stdPartition (fun ind => ind.selected)
        (successUpdate s.m_useNewUpdate s.mu (ext.select s.mu
          (generateOffspring ext f s.m_evaluator s.mu
            s.m_pop rng).1))).getD i default with
            age := ((stdPartition (fun ind => ind.selected)
        (successUpdate s.m_useNewUpdate s.mu (ext.select s.mu
          (generateOffspring ext f s.m_evaluator s.mu
            s.m_pop rng).1))).getD i default).age + 1 } ∧
        (MOCMA.step ext f s rng).1.getD i default =
          ((ext.update { (stdPartition (fun ind => ind.selected)
        (successUpdate s.m_useNewUpdate s.mu (ext.select s.mu
          (generateOffspring ext f s.m_evaluator s.mu
            s.m_pop rng).1))).getD i default with
              age := ((stdPartition (fun ind => ind.selected)
        (successUpdate s.m_useNewUpdate s.mu (ext.select s.mu
          (generateOffspring ext f s.m_evaluator s.mu
            s.m_pop rng).1))).getD i default).age + 1 }).searchPoint,
           (ext.update { (stdPartition (fun ind => ind.selected)
        (successUpdate s.m_useNewUpdate s.mu (ext.select s.mu
          (generateOffspring ext f s.m_evaluator s.mu
            s.m_pop rng).1))).getD i default with
              age := ((stdPartition (fun ind => ind.selected)
        (successUpdate s.m_useNewUpdate s.mu (ext.select s.mu
          (generateOffspring ext f s.m_evaluator s.mu
            s.m_pop rng).1))).getD i default).age + 1 }).unpenalizedFitness)) := by
  have hrfl : (MOCMA.step ext f s rng).2.1.m_pop =
      (finalizeLoopAux ext.update s.mu (stdPartition (fun ind => ind.selected)
        (successUpdate s.m_useNewUpdate s.mu (ext.select s.mu
          (generateOffspring ext f s.m_evaluator s.mu
            s.m_pop rng).1))) s.mu).1 := rfl
  have hrfl2 : (MOCMA.step ext f s rng).1 =
      (finalizeLoopAux ext.update s.mu (stdPartition (fun ind => ind.selected)
        (successUpdate s.m_useNewUpdate s.mu (ext.select s.mu
          (generateOffspring ext f s.m_evaluator s.mu
            s.m_pop rng).1))) s.mu).2 := rfl
  obtain ⟨hA, hB, hC, hD, _, _⟩ := selectionTail_spec s.m_useNewUpdate s.mu
    ext.update (ext.select s.mu (generateOffspring ext f s.m_evaluator s.mu
      s.m_pop rng).1) hsellen hselcount hupd
  simp only [hrfl, hrfl2]
  exact ⟨hA, hB, hC, hD⟩

/-- Witness for `step_returns_mu_solutions` on the concrete scenario. -/
theorem step_returns_mu_solutions_witness :
    ((cexExternals.select cexState.mu (generateOffspring cexExternals cexF
        cexState.m_evaluator cexState.mu cexState.m_pop 0).1).length = 2 * cexState.mu ∧
      (cexExternals.select cexState.mu (generateOffspring cexExternals cexF
        cexState.m_evaluator cexState.mu cexState.m_pop 0).1).countP (fun ind => ind.selected) = cexState.mu) ∧
      ((MOCMA.step cexExternals cexF cexState 0).2.1.m_pop.length = 2 * cexState.mu ∧
      (MOCMA.step cexExternals cexF cexState 0).2.1.m_pop.countP
        (fun ind => ind.selected) = cexState.mu ∧
      (MOCMA.step cexExternals cexF cexState 0).1.length = cexState.mu ∧
      (∀ i, i < cexState.mu →
        (MOCMA.step cexExternals cexF cexState 0).2.1.m_pop.getD i default =
          cexExternals.update { (stdPartition (fun ind => ind.selected)
        (successUpdate cexState.m_useNewUpdate cexState.mu (cexExternals.select cexState.mu
          (generateOffspring cexExternals cexF cexState.m_evaluator cexState.mu
            cexState.m_pop 0).1))).getD i default with
            age := ((stdPartition (fun ind => ind.selected)
        (successUpdate cexState.m_useNewUpdate cexState.mu (cexExternals.select cexState.mu
          (generateOffspring cexExternals cexF cexState.m_evaluator cexState.mu
            cexState.m_pop 0).1))).getD i default).age + 1 } ∧
        (MOCMA.step cexExternals cexF cexState 0).1.getD i default =
          ((cexExternals.update { (stdPartition (fun ind => ind.selected)
        (successUpdate cexState.m_useNewUpdate cexState.mu (cexExternals.select cexState.mu
          (generateOffspring cexExternals cexF cexState.m_evaluator cexState.mu
            cexState.m_pop 0).1))).getD i default with
              age := ((stdPartition (fun ind => ind.selected)
        (successUpdate cexState.m_useNewUpdate cexState.mu (cexExternals.select cexState.mu
          (generateOffspring cexExternals cexF cexState.m_evaluator cexState.mu
            cexState.m_pop 0).1))).getD i default).age + 1 }).searchPoint,
           (cexExternals.update { (stdPartition (fun ind => ind.selected)
        (successUpdate cexState.m_useNewUpdate cexState.mu (cexExternals.select cexState.mu
          (generateOffspring cexExternals cexF cexState.m_evaluator cexState.mu
            cexState.m_pop 0).1))).getD i default with
              age := ((stdPartition (fun ind => ind.selected)
        (successUpdate cexState.m_useNewUpdate cexState.mu (cexExternals.select cexState.mu
          (generateOffspring cexExternals cexF cexState.m_evaluator cexState.mu
            cexState.m_pop 0).1))).getD i default).age + 1 }).unpenalizedFitness))) :=
  ⟨⟨by decide, by decide⟩,
    step_returns_mu_solutions cexExternals cexF cexState 0
      (by decide) (by decide) (fun ind => rfl)⟩

end SharkMOCMA






